import Mathlib

/-!
Verification of the SidekickAI change-manager and provider-router subsystems.

The definitions below are a shallow embedding of the TypeScript sources
`src/utils/fileWriter.ts` and `src/ai/aiService.ts`.  Effectful collaborators
(the editor file-access capability and the HTTP transport) are modelled as
explicit state / explicit outcome parameters, exactly as the specification
describes them as injectable test doubles.  The structured logger is modelled
as absent: it is write-only in the source and never consulted for control
decisions.
-/

namespace SidekickAI

/-! ### Data model (fileWriter.ts) -/

/-- Enum `EditType` from fileWriter.ts. -/
inductive EditType where
  | create
  | replace
  | insert
  | modify
  | delete
deriving DecidableEq, Repr

/-- Enum `ChangeStatus` from fileWriter.ts. -/
inductive ChangeStatus where
  | pending
  | applied
  | failed
  | cancelled
deriving DecidableEq, Repr

/-- Interface `FileChange` from fileWriter.ts.  The `timestamp`, `commandType`
and optional `reasoning` fields play no role in any control flow and are
omitted from the embedding. -/
structure FileChange where
  id : String
  filePath : String
  originalContent : String
  newContent : String
  changeType : EditType
  description : String
  status : ChangeStatus
deriving DecidableEq, Repr

/-- Test double for the file-access collaborator (spec section 6): a partial
map from paths to text content, together with per-path failure switches for
the write and delete operations, so that IO errors can be injected. -/
structure FileSystem where
  files : String → Option String
  writeFails : String → Bool
  deleteFails : String → Bool

/-- read-text(path) -> string | NotFound. -/
def fsRead (fs : FileSystem) (p : String) : Option String :=
  fs.files p

/-- write-text(path, content) -> ok | IOError (`none` models the thrown error). -/
def fsWrite (fs : FileSystem) (p c : String) : Option FileSystem :=
  if fs.writeFails p then none
  else some { fs with files := fun q => if q = p then some c else fs.files q }

/-- delete(path) -> ok | IOError; deleting a missing file is an error, as in
`vscode.workspace.fs.delete` with `useTrash: false`. -/
def fsDelete (fs : FileSystem) (p : String) : Option FileSystem :=
  if fs.deleteFails p ∨ (fs.files p).isNone then none
  else some { fs with files := fun q => if q = p then none else fs.files q }

/-- `deleteFilePhysically` from fileWriter.ts: catches the IO error and
returns a success flag instead of throwing. -/
def deleteFilePhysically (fs : FileSystem) (p : String) : Bool × FileSystem :=
  match fsDelete fs p with
  | some fs2 => (true, fs2)
  | none => (false, fs)

/-- Decimal digits of a natural number; the fuel argument makes the
recursion structural, so that the kernel can evaluate ids. -/
def decDigits (fuel n : Nat) : List Char :=
  match fuel with
  | 0 => []
  | f + 1 =>
    if n < 10 then [Nat.digitChar n]
    else decDigits f (n / 10) ++ [Nat.digitChar (n % 10)]

/-- Decimal representation of a natural number. -/
def decRepr (n : Nat) : String :=
  String.mk (decDigits (n + 1) n)

/-- Decimal representation of an integer (JavaScript number printing for the
integer values that occur here). -/
def intRepr (i : Int) : String :=
  if i < 0 then "-" ++ decRepr i.natAbs else decRepr i.natAbs

/-- JavaScript regex `\s` and the whitespace class of `String.prototype.trim`,
restricted to the ASCII range used here. -/
def wsChar (c : Char) : Bool :=
  c == ' ' || c == '\t' || c == '\n' || c == '\r' || c == '\x0b' || c == '\x0c'

/-- JavaScript `String.prototype.trim`: strip whitespace from both ends. -/
def jsTrim (s : String) : String :=
  String.mk (((s.data.dropWhile wsChar).reverse.dropWhile wsChar).reverse)

/-- Split a character list on a separator character. -/
def splitOnSep (sep : Char) : List Char → List (List Char)
  | [] => [[]]
  | c :: rest =>
    match splitOnSep sep rest with
    | [] => [[]]
    | h :: t => if c == sep then [] :: h :: t else (c :: h) :: t

/-- JavaScript `content.split("\n")`. -/
def splitLines (s : String) : List String :=
  (splitOnSep '\n' s.data).map String.mk

/-- JavaScript `lines.join("\n")`. -/
def joinNl : List String → String
  | [] => ""
  | [s] => s
  | s :: rest => s ++ "\n" ++ joinNl rest

/-- JavaScript `String.prototype.toUpperCase` over the ASCII range. -/
def upperStr (s : String) : String :=
  String.mk (s.data.map Char.toUpper)

/-- `generateChangeId` from fileWriter.ts builds `change_${Date.now()}_${rand}`;
the embedding determinises the id supply with a per-manager counter.  -/
def generateChangeId (n : Nat) : String :=
  "change_" ++ decRepr n

/-- The mutable state of a `FileWriter` instance: the pending and history
collections, the history capacity bound, and the determinised id counter. -/
structure WriterState where
  pendingChanges : List FileChange
  changeHistory : List FileChange
  maxHistorySize : Nat
  nextId : Nat
deriving DecidableEq, Repr

/-- A freshly constructed `FileWriter` (empty collections, `maxHistorySize = 100`). -/
def initialWriter : WriterState :=
  { pendingChanges := [], changeHistory := [], maxHistorySize := 100, nextId := 0 }

/-! ### Staging operations -/

/-- `createFile` from fileWriter.ts: pure construction, enqueues a Pending
change with empty original content. -/
def createFile (st : WriterState) (filePath content desc : String) :
    FileChange × WriterState :=
  let c : FileChange :=
    { id := generateChangeId st.nextId, filePath := filePath, originalContent := "",
      newContent := content, changeType := .create, description := desc,
      status := .pending }
  (c, { st with pendingChanges := st.pendingChanges ++ [c], nextId := st.nextId + 1 })

/-- `modifyFile` from fileWriter.ts: tries to read the current content of the
path; the catch branch of the source makes a read failure non-fatal, so the
embedding is total and degrades to an empty original content. -/
def modifyFile (fs : FileSystem) (st : WriterState) (filePath newContent desc : String) :
    FileChange × WriterState :=
  let originalContent := (fsRead fs filePath).getD ""
  let c : FileChange :=
    { id := generateChangeId st.nextId, filePath := filePath,
      originalContent := originalContent, newContent := newContent,
      changeType := .modify, description := desc, status := .pending }
  (c, { st with pendingChanges := st.pendingChanges ++ [c], nextId := st.nextId + 1 })

/-- `deleteFile` from fileWriter.ts: same original-content-read policy as
`modifyFile`, with empty new content. -/
def deleteFile (fs : FileSystem) (st : WriterState) (filePath desc : String) :
    FileChange × WriterState :=
  let originalContent := (fsRead fs filePath).getD ""
  let c : FileChange :=
    { id := generateChangeId st.nextId, filePath := filePath,
      originalContent := originalContent, newContent := "",
      changeType := .delete, description := desc, status := .pending }
  (c, { st with pendingChanges := st.pendingChanges ++ [c], nextId := st.nextId + 1 })

/-- Request shape used by the private `createChange` staging path
(`FileEditRequest` in fileWriter.ts, restricted to the fields it reads). -/
structure FileEditRequest where
  filePath : String
  editType : EditType
  newContent : String
  originalContent : Option String
  description : String

/-- `createChange` from fileWriter.ts: stages a change of an arbitrary edit
type.  The source computes `request.originalContent || originalContent`, and
the JavaScript `||` falls through on the empty string, which the embedding
reproduces. -/
def createChange (fs : FileSystem) (st : WriterState) (req : FileEditRequest) :
    FileChange × WriterState :=
  let readBack := if req.editType ≠ EditType.create then (fsRead fs req.filePath).getD "" else ""
  let originalContent :=
    match req.originalContent with
    | some s => if s = "" then readBack else s
    | none => readBack
  let c : FileChange :=
    { id := generateChangeId st.nextId, filePath := req.filePath,
      originalContent := originalContent, newContent := req.newContent,
      changeType := req.editType, description := req.description,
      status := .pending }
  (c, { st with pendingChanges := st.pendingChanges ++ [c], nextId := st.nextId + 1 })

/-! ### Applying changes -/

/-- Index of the first blank line of a file, 0 when there is none: the
insertion-point search inside the INSERT branch of `executeChange`. -/
def firstBlankLineIdx (lines : List String) : Nat :=
  match lines.findIdx? (fun l => jsTrim l == "") with
  | some i => i
  | none => 0

/-- `lines.splice(i, 0, s)` from the INSERT branch. -/
def spliceIn (lines : List String) (i : Nat) (s : String) : List String :=
  lines.take i ++ [s] ++ lines.drop i

/-- `executeChange` from fileWriter.ts.  `none` is the `false` outcome (the
source catches every IO error and returns false).  The DELETE branch calls
`deleteFilePhysically`, which itself catches errors, and the source ignores
its boolean result, so a DELETE always reports success. -/
def executeChange (fs : FileSystem) (c : FileChange) : Option FileSystem :=
  match c.changeType with
  | .create => fsWrite fs c.filePath c.newContent
  | .modify => fsWrite fs c.filePath c.newContent
  | .replace => fsWrite fs c.filePath c.newContent
  | .delete => some (deleteFilePhysically fs c.filePath).2
  | .insert =>
    match fsRead fs c.filePath with
    | some orig =>
      let lines := splitLines orig
      let joined := joinNl (spliceIn lines (firstBlankLineIdx lines) c.newContent)
      match fsWrite fs c.filePath joined with
      | some fs2 => some fs2
      | none => fsWrite fs c.filePath c.newContent
    | none => fsWrite fs c.filePath c.newContent

/-- `this.changeHistory.slice(-maxHistorySize)` trimming from `moveToHistory`. -/
def trimHistory (h : List FileChange) (maxSize : Nat) : List FileChange :=
  if maxSize < h.length then h.drop (h.length - maxSize) else h

/-- `moveToHistory` from fileWriter.ts: splice the change out of the pending
array (first occurrence of its id) and push it onto the bounded history. -/
def moveToHistory (st : WriterState) (c : FileChange) : WriterState :=
  { st with
    pendingChanges := st.pendingChanges.eraseP (fun x => x.id == c.id),
    changeHistory := trimHistory (st.changeHistory ++ [c]) st.maxHistorySize }

/-- In-place status mutation of the first pending change with the given id
(the source mutates the object found by `find`). -/
def setStatusFirst (l : List FileChange) (cid : String) (s : ChangeStatus) :
    List FileChange :=
  match l with
  | [] => []
  | x :: xs => if x.id == cid then { x with status := s } :: xs else x :: setStatusFirst xs cid s

/-- `applyChange` from fileWriter.ts.  `Except.error` models the single thrown
`Change not found` error; every IO failure is caught and reported through the
boolean result.  On success the source first sets the found object to
APPLIED and then `moveToHistory` splices that same object out of pending, so
the embedding moves the applied record directly. -/
def applyChange (fs : FileSystem) (st : WriterState) (changeId : String)
    (dryRun : Bool) : Except String (Bool × FileSystem × WriterState) :=
  match st.pendingChanges.find? (fun c => c.id == changeId) with
  | none => .error ("Change not found: " ++ changeId)
  | some c =>
    if dryRun then .ok (true, fs, st)
    else
      match executeChange fs c with
      | some fs2 => .ok (true, fs2, moveToHistory st { c with status := .applied })
      | none =>
        .ok (false, fs, { st with pendingChanges := setStatusFirst st.pendingChanges changeId .failed })

/-- One iteration of the `applyAllChanges` loop: apply one change and tally;
the catch branch of the loop counts a thrown error as a failure. -/
def applyAllStep (acc : (Nat × Nat) × FileSystem × WriterState) (c : FileChange)
    (dryRun : Bool) : (Nat × Nat) × FileSystem × WriterState :=
  match applyChange acc.2.1 acc.2.2 c.id dryRun with
  | .ok (true, fs2, st2) => ((acc.1.1 + 1, acc.1.2), fs2, st2)
  | .ok (false, fs2, st2) => ((acc.1.1, acc.1.2 + 1), fs2, st2)
  | .error _ => ((acc.1.1, acc.1.2 + 1), acc.2.1, acc.2.2)

/-- `applyAllChanges` from fileWriter.ts: iterates over a snapshot copy of the
pending array, applying each change independently. -/
def applyAllChanges (fs : FileSystem) (st : WriterState) (dryRun : Bool) :
    (Nat × Nat) × FileSystem × WriterState :=
  st.pendingChanges.foldl (fun acc c => applyAllStep acc c dryRun) ((0, 0), fs, st)

/-- `cancelChange` from fileWriter.ts: removes a pending change (the spliced
record receives status Cancelled and leaves both collections); returns false
for an unknown id. -/
def cancelChange (st : WriterState) (changeId : String) : Bool × WriterState :=
  match st.pendingChanges.findIdx? (fun c => c.id == changeId) with
  | none => (false, st)
  | some _ =>
    (true, { st with pendingChanges := st.pendingChanges.eraseP (fun c => c.id == changeId) })

/-- `undoChange` from fileWriter.ts: only applies to a history record with
status Applied; performs the inverse file operation.  For MODIFY and DELETE
the source assigns the `void` result of `writeFileContent` to its success
flag, so at run time the returned flag is falsy even when the restore write
happened; the embedding returns `false` there while still threading the
updated file system. -/
def undoChange (fs : FileSystem) (st : WriterState) (changeId : String) :
    Bool × FileSystem :=
  match st.changeHistory.find? (fun c => c.id == changeId) with
  | none => (false, fs)
  | some c =>
    if c.status = ChangeStatus.applied then
      match c.changeType with
      | .create => deleteFilePhysically fs c.filePath
      | .modify =>
        match fsWrite fs c.filePath c.originalContent with
        | some fs2 => (false, fs2)
        | none => (false, fs)
      | .delete =>
        match fsWrite fs c.filePath c.originalContent with
        | some fs2 => (false, fs2)
        | none => (false, fs)
      | _ => (false, fs)
    else (false, fs)

/-! ### Previews -/

/-- `path.basename`: the final path segment. -/
def basename (p : String) : String :=
  ((splitOnSep (Char.ofNat 47) p.data).map String.mk).getLastD p

/-- The string value of an `EditType` (the TypeScript enum values). -/
def editTypeStr : EditType → String
  | .create => "create"
  | .replace => "replace"
  | .insert => "insert"
  | .modify => "modify"
  | .delete => "delete"

/-- `calculateDiffSummary` from fileWriter.ts. -/
def calculateDiffSummary (o n : String) : String :=
  let lineDiff : Int := ((splitLines n).length : Int) - ((splitLines o).length : Int)
  let charDiff : Int := (n.length : Int) - (o.length : Int)
  (if lineDiff ≠ 0 then (if 0 < lineDiff then "+" else "") ++ intRepr lineDiff ++ " lines, " else "")
    ++ (if 0 < charDiff then "+" else "") ++ intRepr charDiff ++ " characters"

/-- `generatePreviewText` from fileWriter.ts. -/
def generatePreviewText (c : FileChange) : String :=
  match c.changeType with
  | .create => "New file with " ++ decRepr c.newContent.length ++ " characters"
  | .delete => "Delete file with " ++ decRepr c.originalContent.length ++ " characters"
  | .modify => "Modify file: " ++ calculateDiffSummary c.originalContent c.newContent
  | .replace => "Modify file: " ++ calculateDiffSummary c.originalContent c.newContent
  | .insert => "Insert " ++ decRepr c.newContent.length ++ " characters"

/-- Interface `ChangePreview` from fileWriter.ts. -/
structure ChangePreview where
  id : String
  title : String
  description : String
  filePath : String
  changeType : EditType
  preview : String
  isDestructive : Bool
  canUndo : Bool
deriving DecidableEq, Repr

/-- `getChangePreview` from fileWriter.ts.  Note the destructiveness test in
this method checks only DELETE and MODIFY, not REPLACE. -/
def getChangePreview (st : WriterState) (changeId : String) : Option ChangePreview :=
  match st.pendingChanges.find? (fun c => c.id == changeId) with
  | none => none
  | some c =>
    some
      { id := c.id,
        title := upperStr (editTypeStr c.changeType) ++ ": " ++ basename c.filePath,
        description := c.description,
        filePath := c.filePath,
        changeType := c.changeType,
        preview := generatePreviewText c,
        isDestructive :=
          c.changeType == EditType.delete ||
            (c.changeType == EditType.modify &&
              decide (c.newContent.length * 2 < c.originalContent.length)),
        canUndo := c.changeType != EditType.create }

/-! ### Response parser (aiService.ts) -/

/-- Request-type tag (`AIRequestType` in aiService.ts). -/
inductive AIRequestType where
  | write
  | modify
  | explain
  | generate
deriving DecidableEq, Repr

/-- The finish/stop-reason slice of the opaque provider metadata attached to a
parsed response (the only metadata fields `calculateConfidence` reads). -/
structure MetadataInfo where
  finishReason : Option String
  stopReason : Option String
deriving DecidableEq, Repr

/-- Normalised response (`AICodeResponse` in aiService.ts); the confidence is
modelled with exact rationals. -/
structure AICodeResponse where
  code : String
  explanation : Option String
  confidence : ℚ
  metadata : Option MetadataInfo
deriving DecidableEq, Repr

/-- JavaScript regex `\w`. -/
def isWordChar (c : Char) : Bool :=
  c.isAlphanum || c == '_'

/-- True when the list begins with three backticks. -/
def startsTicks : List Char → Bool
  | '`' :: '`' :: '`' :: _ => true
  | _ => false

/-- The closing search of the lazy group in regex ``` [\w]*\n?([\s\S]*?)\n?``` :
the shortest prefix (the group) followed by an optional newline and three
backticks; returns the group and the text after the closing fence. -/
def findClose : List Char → Option (List Char × List Char)
  | [] => none
  | c :: rest =>
    if c == '\n' && startsTicks rest then some ([], rest.drop 3)
    else if startsTicks (c :: rest) then some ([], rest.drop 2)
    else (findClose rest).map fun gr => (c :: gr.1, gr.2)

/-- One attempt of the fenced-block regex at the current position: three
backticks, a greedy run of word characters (the language tag), an optional
newline, then the lazily matched group up to the closing fence.  Returns the
raw group and the remainder after the whole match. -/
def tryFence (l : List Char) : Option (List Char × List Char) :=
  if startsTicks l then
    let afterLang := (l.drop 3).dropWhile isWordChar
    let afterNl :=
      match afterLang with
      | '\n' :: r => r
      | _ => afterLang
    findClose afterNl
  else none

theorem findClose_length (l : List Char) :
    ∀ g r, findClose l = some (g, r) → r.length < l.length := by
  induction l with
  | nil => intro g r h; simp [findClose] at h
  | cons c rest ih =>
    intro g r h
    simp only [findClose] at h
    split at h
    · simp only [Option.some.injEq, Prod.mk.injEq] at h
      obtain ⟨_, rfl⟩ := h
      simp only [List.length_cons, List.length_drop]
      omega
    · split at h
      · simp only [Option.some.injEq, Prod.mk.injEq] at h
        obtain ⟨_, rfl⟩ := h
        simp only [List.length_cons, List.length_drop]
        omega
      · cases hrec : findClose rest with
        | none => rw [hrec] at h; simp at h
        | some gr =>
          rw [hrec] at h
          simp at h
          obtain ⟨h1, h2⟩ := h
          have := ih gr.1 gr.2 (by rw [hrec])
          subst h2
          simp only [List.length_cons]
          omega

theorem tryFence_length (l g rem : List Char) (h : tryFence l = some (g, rem)) :
    rem.length < l.length := by
  unfold tryFence at h
  split at h
  · rename_i hst
    have h3 : 3 ≤ l.length := by
      unfold startsTicks at hst
      split at hst
      · simp only [List.length_cons]
        omega
      · simp at hst
    have hlang : ((l.drop 3).dropWhile isWordChar).length ≤ l.length - 3 := by
      have := (List.dropWhile_sublist (l := l.drop 3) isWordChar).length_le
      simpa using this
    have hnl :
        (match (l.drop 3).dropWhile isWordChar with
          | '\n' :: r => r
          | _ => (l.drop 3).dropWhile isWordChar).length ≤
          ((l.drop 3).dropWhile isWordChar).length := by
      split
      · rename_i r heq
        rw [heq]; simp
      · exact le_refl _
    have := findClose_length _ g rem h
    omega
  · exact absurd h (by simp)

/-- The global scan of the fenced-block regex over the text, as performed by
the `while (match = regex.exec(content))` loop and, with the same match
positions, by the `content.replace(regex, ...)` call: returns the list of raw
group captures and the text outside the matches.  The fuel argument makes the
recursion structural (so the kernel can evaluate it); every step consumes at
least one character (`tryFence_length`), so the initial fuel `l.length`
supplied by `extractFences` is never exhausted. -/
def extractFencesAux (fuel : Nat) (l : List Char) : List (List Char) × List Char :=
  match fuel with
  | 0 => ([], l)
  | f + 1 =>
    match l with
    | [] => ([], [])
    | c :: rest =>
      match tryFence (c :: rest) with
      | some (g, rem) =>
        let p := extractFencesAux f rem
        (g :: p.1, p.2)
      | none =>
        let p := extractFencesAux f rest
        (p.1, c :: p.2)

/-- The fenced-block scan of a full character list. -/
def extractFences (l : List Char) : List (List Char) × List Char :=
  extractFencesAux l.length l

/-- The trimmed code blocks collected by `parseAIResponse` (`match[1].trim()`). -/
def codeBlocksOf (content : String) : List String :=
  (extractFences content.data).1.map fun g => jsTrim (String.mk g)

/-- `content.replace(codeBlockRegex, "")`: the text outside code blocks. -/
def strippedOf (content : String) : String :=
  String.mk (extractFences content.data).2

/-- The reducer `(prev, cur) => cur.length > prev.length ? cur : prev`. -/
def pickStep (prev cur : String) : String :=
  if prev.length < cur.length then cur else prev

/-- `codeBlocks.reduce(pickStep)`: the longest block, first occurrence
winning ties. -/
def pickLongest : List String → String
  | [] => ""
  | b :: bs => bs.foldl pickStep b

/-- List version of substring search: some suffix of the haystack starts with
the needle. -/
def leadsWith : List Char → List Char → Bool
  | [], _ => true
  | _ :: _, [] => false
  | a :: as, b :: bs => a == b && leadsWith as bs

/-- Whether some suffix of the list satisfies the test. -/
def anySuffix (p : List Char → Bool) : List Char → Bool
  | [] => p []
  | c :: rest => p (c :: rest) || anySuffix p rest

/-- `haystack.includes(needle)` on character lists. -/
def hasSubList (needle hay : List Char) : Bool :=
  anySuffix (leadsWith needle) hay

/-- `s.includes(pat)` from JavaScript. -/
def strHasSub (s pat : String) : Bool :=
  hasSubList pat.data s.data

/-- Zero or more whitespace characters, then the continuation. -/
def wsStarThen (k : List Char → Bool) : List Char → Bool
  | [] => k []
  | c :: rest => if wsChar c then wsStarThen k rest else k (c :: rest)

/-- One or more whitespace characters, then the continuation (regex `\s+`). -/
def wsPlusThen (k : List Char → Bool) (l : List Char) : Bool :=
  match l with
  | [] => false
  | c :: rest => wsChar c && wsStarThen k rest

/-- The head is a word character (regex `\w+` viewed as: at least one). -/
def headIsWord : List Char → Bool
  | [] => false
  | c :: _ => isWordChar c

/-- Regex `kw\s+\w+` somewhere in the line. -/
def kwThenWord (kw : String) (l : List Char) : Bool :=
  anySuffix (fun s => leadsWith kw.data s && wsPlusThen headIsWord (s.drop kw.length)) l

/-- Regex `\w+\s*=` at the current position. -/
def wordEqAfter (l : List Char) : Bool :=
  match l with
  | [] => false
  | c :: rest =>
    isWordChar c &&
      (match (rest.dropWhile isWordChar).dropWhile wsChar with
       | '=' :: _ => true
       | _ => false)

/-- Regex `kw\s+\w+\s*=` somewhere in the line. -/
def kwAssign (kw : String) (l : List Char) : Bool :=
  anySuffix (fun s => leadsWith kw.data s && wsPlusThen wordEqAfter (s.drop kw.length)) l

/-- Regex `import\s+.*from` somewhere in the line. -/
def importFrom (l : List Char) : Bool :=
  anySuffix (fun s => leadsWith "import".data s &&
    wsPlusThen (fun r => hasSubList "from".data r) (s.drop 6)) l

/-- Regex `export\s+(default\s+)?` somewhere in the line. -/
def exportWs (l : List Char) : Bool :=
  anySuffix (fun s => leadsWith "export".data s && wsPlusThen (fun _ => true) (s.drop 6)) l

/-- Regex `{[\s\S]*}` somewhere in the line. -/
def braceBlock (l : List Char) : Bool :=
  anySuffix (fun s =>
    match s with
    | '{' :: r => r.contains '}'
    | _ => false) l

/-- Regex `;$` under the `m` flag, applied to a single line. -/
def endsSemi (l : List Char) : Bool :=
  match l.getLast? with
  | some c => c == ';'
  | none => false

/-- Regex `\/\*[\s\S]*?\*\/` somewhere in the line. -/
def blockComment (l : List Char) : Bool :=
  anySuffix (fun s => leadsWith "/*".data s && hasSubList "*/".data (s.drop 2)) l

/-- Regex `\/\/.*$` under the `m` flag: a double slash somewhere in the line. -/
def lineComment (l : List Char) : Bool :=
  hasSubList "//".data l

/-- One line matched against the `codeIndicators` array of `detectCodeContent`. -/
def lineIsCode (line : String) : Bool :=
  kwThenWord "function" line.data || kwAssign "const" line.data ||
    kwAssign "let" line.data || kwAssign "var" line.data ||
    kwThenWord "class" line.data || importFrom line.data || exportWs line.data ||
    braceBlock line.data || endsSemi line.data || blockComment line.data ||
    lineComment line.data

/-- `detectCodeContent` from aiService.ts: more than 30 percent of the lines
match a code indicator. -/
def detectCodeContent (content : String) : Bool :=
  let lines := splitLines content
  let codeLines := lines.filter lineIsCode
  decide ((lines.length : ℚ) * (3 / 10) < (codeLines.length : ℚ))

/-- `calculateConfidence` from aiService.ts, with exact rational arithmetic in
place of IEEE doubles.  String length counts characters (the JavaScript
`.length` counts UTF-16 units; they agree on the basic plane). -/
def calculateConfidence (content : String) (ty : AIRequestType)
    (md : Option MetadataInfo) : ℚ :=
  let c0 : ℚ := 7 / 10
  let c1 := if 100 < content.length then c0 + 1 / 10 else c0
  let c2 := if 500 < content.length then c1 + 1 / 10 else c1
  let c3 := if ty = AIRequestType.explain ∧ 200 < content.length then c2 + 1 / 10 else c2
  let c4 :=
    if ty ≠ AIRequestType.explain ∧ strHasSub content "```" = true then c3 + 1 / 10 else c3
  let c5 :=
    match md with
    | none => c4
    | some m =>
      let a :=
        if m.finishReason = some "stop" ∨ m.stopReason = some "end_turn" then c4 + 1 / 10
        else c4
      if m.finishReason = some "length" ∨ m.stopReason = some "max_tokens" then a - 2 / 10
      else a
  min (max c5 (1 / 10)) 1

/-- `parseAIResponse` from aiService.ts. -/
def parseAIResponse (content : String) (ty : AIRequestType)
    (md : Option MetadataInfo) : AICodeResponse :=
  let parsed : String × Option String :=
    if ty = AIRequestType.explain then ("", some (jsTrim content))
    else
      match codeBlocksOf content with
      | [] =>
        if detectCodeContent content then (jsTrim content, none) else ("", some (jsTrim content))
      | b :: bs =>
        let code := pickLongest (b :: bs)
        let expl := jsTrim (strippedOf content)
        (code, if expl ≠ "" then some expl else none)
  { code := parsed.1, explanation := parsed.2,
    confidence := calculateConfidence content ty md, metadata := md }

/-! ### Provider router (aiService.ts) -/

/-- Enum `AIProvider`. -/
inductive AIProvider where
  | openai
  | claude
  | ollama
  | lmstudio
  | vllm
deriving DecidableEq, Repr

/-- The transport-error shape the handlers inspect (`axios.isAxiosError`,
`error.response?.status`, `error.code`, `error.message`). -/
structure AxiosErrorInfo where
  status : Option Nat
  code : Option String
  message : String
  isAxiosError : Bool
deriving DecidableEq, Repr

/-- The fields of a successful JSON payload that any of the five handlers
reads; fields missing from a given response shape are `none`, matching the
optional chaining in the source. -/
structure TransportData where
  choiceMessageContent : Option String
  choiceText : Option String
  responseText : Option String
  contentText : Option String
  choiceFinishReason : Option String
  stopReasonField : Option String
deriving DecidableEq, Repr

/-- A single quote character, for building quoted error messages. -/
def squote : String :=
  String.mk [Char.ofNat 39]

/-- `handleOpenAIRequest`: success extracts `choices[0]?.message?.content`;
the catch branch classifies 401, 429 and 402 and otherwise rethrows the
original message. -/
def handleOpenAIRequest (ty : AIRequestType)
    (outcome : Except AxiosErrorInfo TransportData) : Except String AICodeResponse :=
  match outcome with
  | .ok d =>
    .ok (parseAIResponse (d.choiceMessageContent.getD "") ty
      (some { finishReason := d.choiceFinishReason, stopReason := none }))
  | .error e =>
    if e.isAxiosError && e.status == some 401 then
      .error "OpenAI API key is invalid or expired"
    else if e.isAxiosError && e.status == some 429 then
      .error "OpenAI API rate limit exceeded"
    else if e.isAxiosError && e.status == some 402 then
      .error "OpenAI API quota exceeded"
    else .error e.message

/-- `handleClaudeRequest`: success extracts `content[0]?.text`; the catch
branch classifies 401 and 429. -/
def handleClaudeRequest (ty : AIRequestType)
    (outcome : Except AxiosErrorInfo TransportData) : Except String AICodeResponse :=
  match outcome with
  | .ok d =>
    .ok (parseAIResponse (d.contentText.getD "") ty
      (some { finishReason := none, stopReason := d.stopReasonField }))
  | .error e =>
    if e.isAxiosError && e.status == some 401 then
      .error "Claude API key is invalid or expired"
    else if e.isAxiosError && e.status == some 429 then
      .error "Claude API rate limit exceeded"
    else .error e.message

/-- `handleOllamaRequest`: success extracts `data.response`; the catch branch
classifies a refused connection and a 404 missing model. -/
def handleOllamaRequest (ty : AIRequestType) (modelName : String)
    (outcome : Except AxiosErrorInfo TransportData) : Except String AICodeResponse :=
  match outcome with
  | .ok d =>
    .ok (parseAIResponse (d.responseText.getD "") ty
      (some { finishReason := none, stopReason := none }))
  | .error e =>
    if e.isAxiosError && e.code == some "ECONNREFUSED" then
      .error "Ollama server is not running. Please start Ollama and try again."
    else if e.isAxiosError && e.status == some 404 then
      .error ("Ollama model " ++ squote ++ modelName ++ squote ++
        " not found. Please pull the model first.")
    else .error e.message

/-- `handleLMStudioRequest`: success extracts `choices[0]?.message?.content`;
the catch branch classifies a refused connection. -/
def handleLMStudioRequest (ty : AIRequestType)
    (outcome : Except AxiosErrorInfo TransportData) : Except String AICodeResponse :=
  match outcome with
  | .ok d =>
    .ok (parseAIResponse (d.choiceMessageContent.getD "") ty
      (some { finishReason := none, stopReason := none }))
  | .error e =>
    if e.isAxiosError && e.code == some "ECONNREFUSED" then
      .error "LM Studio server is not running. Please start LM Studio and load a model."
    else .error e.message

/-- `handleVLLMRequest`: success extracts `choices[0]?.text`; the catch branch
classifies a refused connection. -/
def handleVLLMRequest (ty : AIRequestType)
    (outcome : Except AxiosErrorInfo TransportData) : Except String AICodeResponse :=
  match outcome with
  | .ok d =>
    .ok (parseAIResponse (d.choiceText.getD "") ty
      (some { finishReason := none, stopReason := none }))
  | .error e =>
    if e.isAxiosError && e.code == some "ECONNREFUSED" then
      .error "vLLM server is not running. Please start the vLLM server."
    else .error e.message

/-- `sendRequest` from aiService.ts: dispatch on the configured provider, and
the catch-all that logs the failed activity and rethrows every handler error
wrapped in one descriptive message.  The HTTP call is represented by its
outcome, injected as an argument. -/
def sendRequest (provider : AIProvider) (ty : AIRequestType) (modelName : String)
    (outcome : Except AxiosErrorInfo TransportData) : Except String AICodeResponse :=
  let inner :=
    match provider with
    | .openai => handleOpenAIRequest ty outcome
    | .claude => handleClaudeRequest ty outcome
    | .ollama => handleOllamaRequest ty modelName outcome
    | .lmstudio => handleLMStudioRequest ty outcome
    | .vllm => handleVLLMRequest ty outcome
  match inner with
  | .ok r => .ok r
  | .error m => .error ("AI request failed: " ++ m)

/-! ### Helper lemmas -/

theorem decDigits_congr : ∀ f1 f2 n : Nat, n < f1 → n < f2 → decDigits f1 n = decDigits f2 n := by
  intro f1
  induction f1 with
  | zero => intro f2 n h1 _; omega
  | succ f ih =>
    intro f2 n h1 h2
    cases f2 with
    | zero => omega
    | succ g =>
      simp only [decDigits]
      by_cases h10 : n < 10
      · simp [h10]
      · simp only [h10, if_false]
        have h0 : 0 < n := by omega
        have hlt := Nat.div_lt_self h0 (by omega : 1 < 10)
        rw [ih g (n / 10) (by omega) (by omega)]

/-- Value of a decimal digit string. -/
def decVal (l : List Char) : Nat :=
  l.foldl (fun acc c => acc * 10 + (c.toNat - 48)) 0

theorem digit_val : ∀ d, d < 10 → (Nat.digitChar d).toNat - 48 = d := by decide

theorem decVal_append (l : List Char) (c : Char) :
    decVal (l ++ [c]) = decVal l * 10 + (c.toNat - 48) := by
  simp [decVal, List.foldl_append]

theorem decVal_decDigits : ∀ n, decVal (decDigits (n + 1) n) = n := by
  intro n
  induction n using Nat.strong_induction_on with
  | _ n ih =>
    by_cases h10 : n < 10
    · simp only [decDigits, h10, if_true]
      simpa [decVal] using digit_val n h10
    · simp only [decDigits, h10, if_false]
      rw [decVal_append]
      have h0 : 0 < n := by omega
      have hq : n / 10 < n := Nat.div_lt_self h0 (by omega)
      rw [decDigits_congr n (n / 10 + 1) (n / 10) (by omega) (by omega)]
      rw [ih (n / 10) hq, digit_val (n % 10) (Nat.mod_lt n (by omega))]
      omega

theorem decRepr_inj (a b : Nat) (h : decRepr a = decRepr b) : a = b := by
  unfold decRepr at h
  have hd : decDigits (a + 1) a = decDigits (b + 1) b := by injection h
  have := congrArg decVal hd
  rwa [decVal_decDigits, decVal_decDigits] at this

theorem generateChangeId_inj (a b : Nat) (h : generateChangeId a = generateChangeId b) :
    a = b := by
  unfold generateChangeId at h
  have hdata := congrArg String.data h
  rw [String.data_append, String.data_append] at hdata
  have hlist : (decRepr a).data = (decRepr b).data := List.append_cancel_left hdata
  have hd : decDigits (a + 1) a = decDigits (b + 1) b := hlist
  have hv := congrArg decVal hd
  rwa [decVal_decDigits, decVal_decDigits] at hv

theorem leadsWith_self_append : ∀ l t : List Char, leadsWith l (l ++ t) = true := by
  intro l
  induction l with
  | nil => intro t; rfl
  | cons a as ih => intro t; simp [leadsWith, ih]

theorem anySuffix_here (p : List Char → Bool) (l : List Char) (h : p l = true) :
    anySuffix p l = true := by
  cases l with
  | nil => simpa [anySuffix] using h
  | cons c rest => simp [anySuffix, h]

theorem anySuffix_cons (p : List Char → Bool) (c : Char) (l : List Char)
    (h : anySuffix p l = true) : anySuffix p (c :: l) = true := by
  simp [anySuffix, h]

theorem hasSubList_append (pre n rest : List Char) :
    hasSubList n (pre ++ (n ++ rest)) = true := by
  induction pre with
  | nil => exact anySuffix_here _ _ (leadsWith_self_append n rest)
  | cons c pre ih => exact anySuffix_cons _ c _ ih

theorem strHasSub_append (pre pat suf : String) :
    strHasSub (pre ++ pat ++ suf) pat = true := by
  unfold strHasSub
  have : (pre ++ pat ++ suf).data = pre.data ++ (pat.data ++ suf.data) := by
    rw [String.data_append, String.data_append, List.append_assoc]
  rw [this]
  exact hasSubList_append pre.data pat.data suf.data

theorem strHasSub_of_append (pre pat : String) : strHasSub (pre ++ pat) pat = true := by
  have h : pre ++ pat = pre ++ pat ++ "" := by simp
  rw [h]
  exact strHasSub_append pre pat ""

theorem foldl_pickStep (l : List String) : ∀ a : String,
    (l.foldl pickStep a = a ∨ l.foldl pickStep a ∈ l) ∧
    a.length ≤ (l.foldl pickStep a).length ∧
    (∀ b ∈ l, b.length ≤ (l.foldl pickStep a).length) ∧
    (l.foldl pickStep a ≠ a →
      ∃ pre suf, l = pre ++ l.foldl pickStep a :: suf ∧
        a.length < (l.foldl pickStep a).length ∧
        ∀ b ∈ pre, b.length < (l.foldl pickStep a).length) := by
  induction l with
  | nil => intro a; simp
  | cons c l ih =>
    intro a
    simp only [List.foldl_cons]
    by_cases hc : a.length < c.length
    · have hstep : pickStep a c = c := by simp [pickStep, hc]
      rw [hstep]
      obtain ⟨m1, m2, m3, m4⟩ := ih c
      set r := List.foldl pickStep c l
      refine ⟨?_, by omega, ?_, ?_⟩
      · right
        rcases m1 with h | h
        · rw [h]; exact List.mem_cons_self c l
        · exact List.mem_cons_of_mem c h
      · intro b hb
        rcases List.mem_cons.mp hb with rfl | hb
        · exact m2
        · exact m3 b hb
      · intro hne
        by_cases hrc : r = c
        · refine ⟨[], l, ?_, by omega, by simp⟩
          rw [hrc]; rfl
        · obtain ⟨pre, suf, hdec, hlt, hpre⟩ := m4 hrc
          refine ⟨c :: pre, suf, ?_, by omega, ?_⟩
          · rw [List.cons_append, ← hdec]
          · intro b hb
            rcases List.mem_cons.mp hb with rfl | hb
            · omega
            · exact hpre b hb
    · have hstep : pickStep a c = a := by simp [pickStep, hc]
      rw [hstep]
      obtain ⟨m1, m2, m3, m4⟩ := ih a
      set r := List.foldl pickStep a l
      refine ⟨?_, m2, ?_, ?_⟩
      · rcases m1 with h | h
        · exact Or.inl h
        · exact Or.inr (List.mem_cons_of_mem c h)
      · intro b hb
        rcases List.mem_cons.mp hb with rfl | hb
        · omega
        · exact m3 b hb
      · intro hne
        obtain ⟨pre, suf, hdec, hlt, hpre⟩ := m4 hne
        refine ⟨c :: pre, suf, ?_, hlt, ?_⟩
        · rw [List.cons_append, ← hdec]
        · intro b hb
          rcases List.mem_cons.mp hb with rfl | hb
          · omega
          · exact hpre b hb

theorem pickLongest_cons (b : String) (bs : List String) :
    pickLongest (b :: bs) = bs.foldl pickStep b :=
  rfl

theorem pickLongest_mem (b : String) (bs : List String) : pickLongest (b :: bs) ∈ b :: bs := by
  obtain ⟨m1, _, _, _⟩ := foldl_pickStep bs b
  rw [pickLongest_cons]
  rcases m1 with h | h
  · rw [h]; exact List.mem_cons_self b bs
  · exact List.mem_cons_of_mem b h

theorem pickLongest_max (b : String) (bs : List String) :
    ∀ x ∈ b :: bs, x.length ≤ (pickLongest (b :: bs)).length := by
  obtain ⟨_, m2, m3, _⟩ := foldl_pickStep bs b
  rw [pickLongest_cons]
  intro x hx
  rcases List.mem_cons.mp hx with rfl | hx
  · exact m2
  · exact m3 x hx

theorem pickLongest_first (b : String) (bs : List String) :
    ∃ pre suf, b :: bs = pre ++ pickLongest (b :: bs) :: suf ∧
      ∀ x ∈ pre, x.length < (pickLongest (b :: bs)).length := by
  obtain ⟨_, _, _, m4⟩ := foldl_pickStep bs b
  rw [pickLongest_cons]
  by_cases h : bs.foldl pickStep b = b
  · refine ⟨[], bs, ?_, ?_⟩
    · rw [h]; rfl
    · simp
  · obtain ⟨pre, suf, hdec, hlt, hpre⟩ := m4 h
    refine ⟨b :: pre, suf, ?_, ?_⟩
    · rw [List.cons_append, ← hdec]
    · intro x hx
      rcases List.mem_cons.mp hx with rfl | hx
      · exact hlt
      · exact hpre x hx

/-! ### Spec-side reference definitions -/

/-- A file system with no files and no injected failures. -/
def emptyFs : FileSystem :=
  { files := fun _ => none, writeFails := fun _ => false, deleteFails := fun _ => false }

/-- The metadata reports a natural stop (spec section 4.3). -/
def reportsNaturalStop (md : Option MetadataInfo) : Bool :=
  match md with
  | none => false
  | some m => decide (m.finishReason = some "stop" ∨ m.stopReason = some "end_turn")

/-- The metadata reports a length-truncated finish (spec section 4.3). -/
def reportsLengthStop (md : Option MetadataInfo) : Bool :=
  match md with
  | none => false
  | some m => decide (m.finishReason = some "length" ∨ m.stopReason = some "max_tokens")

/-- The confidence formula exactly as the specification words it: a sum of
indicator bonuses and one penalty over the base 0.7, clamped to [0.1, 1].
Stated separately from `calculateConfidence` so that the source computation
can be compared against it. -/
def specConfidence (content : String) (ty : AIRequestType) (md : Option MetadataInfo) : ℚ :=
  let raw : ℚ :=
    7 / 10 + (if 100 < content.length then (1 : ℚ) / 10 else 0)
      + (if 500 < content.length then (1 : ℚ) / 10 else 0)
      + (if ty = AIRequestType.explain ∧ 200 < content.length then (1 : ℚ) / 10 else 0)
      + (if ty ≠ AIRequestType.explain ∧ strHasSub content "```" = true then (1 : ℚ) / 10 else 0)
      + (if reportsNaturalStop md = true then (1 : ℚ) / 10 else 0)
      - (if reportsLengthStop md = true then (2 : ℚ) / 10 else 0)
  min (max raw (1 / 10)) 1

/-- A file system that already holds a file at `/t/a.ts`. -/
def fileFs : FileSystem :=
  { files := fun q => if q = "/t/a.ts" then some "orig" else none,
    writeFails := fun _ => false, deleteFails := fun _ => false }

/-- The propose-apply-undo composite of the round-trip property: apply the
change and, when applying succeeded, undo it in the resulting state. -/
def applyThenUndo (fs : FileSystem) (st : WriterState) (cid : String) : Bool × FileSystem :=
  match applyChange fs st cid false with
  | .ok (_, fs1, st1) => undoChange fs1 st1 cid
  | .error _ => (false, fs)

theorem applyChange_error_of_not_mem (fs : FileSystem) (st : WriterState) (cid : String)
    (d : Bool) (h : ∀ c ∈ st.pendingChanges, c.id ≠ cid) :
    applyChange fs st cid d = Except.error ("Change not found: " ++ cid) := by
  have hf : st.pendingChanges.find? (fun c => c.id == cid) = none := by
    rw [List.find?_eq_none]
    intro x hx
    simpa using h x hx
  unfold applyChange
  rw [hf]

theorem id_not_mem_eraseP :
    ∀ (l : List FileChange) (cid : String),
      (l.map (fun c => c.id)).Nodup →
      (∃ c ∈ l, c.id = cid) →
      ∀ x ∈ l.eraseP (fun c => c.id == cid), x.id ≠ cid := by
  intro l cid
  induction l with
  | nil =>
    rintro _ ⟨c, hc, _⟩
    simp at hc
  | cons a l ih =>
    intro hnd hex x hx
    by_cases ha : (a.id == cid) = true
    · have hh : (∀ x ∈ l, ¬ x.id = a.id) ∧ (l.map (fun c => c.id)).Nodup := by
        simpa using hnd
      simp only [List.eraseP_cons, ha, cond_true] at hx
      intro hxeq
      have haid : a.id = cid := by simpa using ha
      exact hh.1 x hx (by rw [hxeq, haid])
    · have hh : (∀ x ∈ l, ¬ x.id = a.id) ∧ (l.map (fun c => c.id)).Nodup := by
        simpa using hnd
      simp only [List.eraseP_cons, ha, cond_false] at hx
      rcases List.mem_cons.mp hx with rfl | hx2
      · simpa using ha
      · have hnd2 : (l.map (fun c => c.id)).Nodup := hh.2
        have hex2 : ∃ c ∈ l, c.id = cid := by
          obtain ⟨c, hc, hcid⟩ := hex
          rcases List.mem_cons.mp hc with rfl | hc2
          · exact absurd (by simpa using hcid) ha
          · exact ⟨c, hc2, hcid⟩
        exact ih hnd2 hex2 x hx2

theorem findIdx?_imp_exists (p : FileChange → Bool) :
    ∀ (l : List FileChange) (s i : Nat), List.findIdx? p l s = some i → ∃ x ∈ l, p x = true := by
  intro l
  induction l with
  | nil => intro s i h; simp [List.findIdx?] at h
  | cons a l ih =>
    intro s i h
    by_cases ha : p a = true
    · exact ⟨a, List.mem_cons_self a l, ha⟩
    · have hpa : p a = false := by revert ha; cases p a <;> simp
      simp only [List.findIdx?, hpa, Bool.false_eq_true, if_false] at h
      obtain ⟨x, hx, hpx⟩ := ih (s + 1) i h
      exact ⟨x, List.mem_cons_of_mem a hx, hpx⟩

/-- The observable outcome of `applyChange`: the returned flag and the
manager state, with an error collapsed to `none` (the file system is dropped
so that the outcome is decidable). -/
def applyOutcome (fs : FileSystem) (st : WriterState) (cid : String) (dry : Bool) :
    Option (Bool × WriterState) :=
  match applyChange fs st cid dry with
  | .ok (b, _, st2) => some (b, st2)
  | .error _ => none

theorem applyChange_ok_true_shape (fs : FileSystem) (st : WriterState) (cid : String)
    (st2 : WriterState)
    (h : applyOutcome fs st cid false = some (true, st2)) :
    ∃ c, st.pendingChanges.find? (fun x => x.id == cid) = some c ∧
      st2 = moveToHistory st { c with status := ChangeStatus.applied } := by
  unfold applyOutcome applyChange at h
  cases hf : st.pendingChanges.find? (fun x => x.id == cid) with
  | none => rw [hf] at h; simp at h
  | some c =>
    rw [hf] at h
    simp only [Bool.false_eq_true, if_false] at h
    cases hex : executeChange fs c with
    | some fs3 =>
      rw [hex] at h
      simp only [Option.some.injEq, Prod.mk.injEq] at h
      exact ⟨c, rfl, h.2.symm⟩
    | none =>
      rw [hex] at h
      simp at h

/-! ### Claim theorems -/

/-- C8: for every response text, request type and provider metadata, the
confidence score equals the reference computation of the specification
(base 0.7; +0.1 for length over 100; +0.1 for length over 500; +0.1 for an
explain request over 200; +0.1 for a non-explain response containing a fence
marker; +0.1 for a natural-stop finish reason; minus 0.2 for a
length-truncated finish reason; clamped to [0.1, 1]), and the returned
confidence always lies in [0.1, 1]. -/
theorem calculateConfidence_matches_spec :
    ∀ (content : String) (ty : AIRequestType) (md : Option MetadataInfo),
      calculateConfidence content ty md = specConfidence content ty md ∧
      1 / 10 ≤ calculateConfidence content ty md ∧
      calculateConfidence content ty md ≤ 1 := by
  intro content ty md
  refine ⟨?_, ?_, ?_⟩
  · simp only [calculateConfidence, specConfidence, reportsNaturalStop, reportsLengthStop]
    cases md with
    | none =>
      simp only [Bool.false_eq_true, if_false]
      split_ifs <;> norm_num
    | some m =>
      simp only [decide_eq_true_eq]
      split_ifs <;> norm_num
  · simp only [calculateConfidence]
    exact le_min (le_max_right _ _) (by norm_num)
  · simp only [calculateConfidence]
    exact min_le_right _ _

/-- C6: for every id not present among the pending changes, `applyChange`
fails with the `Change not found` error carrying the id, this error message
contains the id, and an unknown id is the only condition under which
`applyChange` produces an error. -/
theorem applyChange_notFound_only :
    ∀ (fs : FileSystem) (st : WriterState) (cid : String) (d : Bool),
      ((∀ c ∈ st.pendingChanges, c.id ≠ cid) →
        applyChange fs st cid d = Except.error ("Change not found: " ++ cid)) ∧
      (∀ e, applyChange fs st cid d = Except.error e →
        e = "Change not found: " ++ cid ∧ ∀ c ∈ st.pendingChanges, c.id ≠ cid) ∧
      strHasSub ("Change not found: " ++ cid) cid = true := by
  intro fs st cid d
  refine ⟨applyChange_error_of_not_mem fs st cid d, ?_, strHasSub_of_append _ _⟩
  · intro e he
    unfold applyChange at he
    cases hf : st.pendingChanges.find? (fun c => c.id == cid) with
    | none =>
      rw [hf] at he
      simp only [Except.error.injEq] at he
      refine ⟨he.symm, ?_⟩
      intro c hc
      simpa using List.find?_eq_none.mp hf c hc
    | some c =>
      rw [hf] at he
      by_cases hd : d
      · simp [hd] at he
      · simp only [hd, if_false] at he
        cases hex : executeChange fs c with
        | some fs2 => rw [hex] at he; simp at he
        | none => rw [hex] at he; simp at he

/-- C6 witness: `applyChange` on an empty manager with id `bogus-id`. -/
theorem applyChange_notFound_only_witness :
    applyChange emptyFs initialWriter "bogus-id" false =
      Except.error ("Change not found: " ++ "bogus-id") :=
  (applyChange_notFound_only emptyFs initialWriter "bogus-id" false).1
    (by intro c hc; simp [initialWriter] at hc)

/-- C7: when reading the current content of the path fails, `modifyFile` and
`deleteFile` still succeed (they are total), enqueue a Pending change, and
that change carries an empty original content. -/
theorem propose_unreadable_degrades :
    ∀ (fs : FileSystem) (st : WriterState) (path newContent desc : String),
      fsRead fs path = none →
      ((modifyFile fs st path newContent desc).1.originalContent = "" ∧
        (modifyFile fs st path newContent desc).1.status = ChangeStatus.pending ∧
        (modifyFile fs st path newContent desc).1 ∈
          (modifyFile fs st path newContent desc).2.pendingChanges) ∧
      ((deleteFile fs st path desc).1.originalContent = "" ∧
        (deleteFile fs st path desc).1.status = ChangeStatus.pending ∧
        (deleteFile fs st path desc).1 ∈ (deleteFile fs st path desc).2.pendingChanges) := by
  intro fs st path nc desc h
  constructor
  · refine ⟨by simp [modifyFile, h], rfl, ?_⟩
    simp [modifyFile]
  · refine ⟨by simp [deleteFile, h], rfl, ?_⟩
    simp [deleteFile]

/-- C7 witness: staging a modification of a missing file on the empty file
system. -/
theorem propose_unreadable_degrades_witness :
    fsRead emptyFs "/missing.ts" = none ∧
      (modifyFile emptyFs initialWriter "/missing.ts" "new" "d").1.originalContent = "" :=
  ⟨rfl, ((propose_unreadable_degrades emptyFs initialWriter "/missing.ts" "new" "d" rfl).1).1⟩

/-- The code and explanation fields of a parsed response do not depend on the
provider metadata (which only feeds the confidence score). -/
theorem parse_projections_md_irrel (content : String) (ty : AIRequestType)
    (md1 md2 : Option MetadataInfo) :
    (parseAIResponse content ty md1).code = (parseAIResponse content ty md2).code ∧
    (parseAIResponse content ty md1).explanation = (parseAIResponse content ty md2).explanation :=
  ⟨rfl, rfl⟩

/-- C4: the response parser returns, for an explain request, the whole
trimmed text as explanation with empty code; otherwise, when fenced blocks
are present, the longest block (first occurrence winning ties) as code, with
the trimmed outside text as explanation when non-empty; and on the concrete
scenario input the code is `const a=1;` and the explanation is
`Explanation text`. -/
theorem parseAIResponse_spec :
    (∀ (content : String) (md : Option MetadataInfo),
      (parseAIResponse content AIRequestType.explain md).code = "" ∧
      (parseAIResponse content AIRequestType.explain md).explanation = some (jsTrim content)) ∧
    (∀ (content : String) (ty : AIRequestType) (md : Option MetadataInfo),
      ty ≠ AIRequestType.explain → codeBlocksOf content ≠ [] →
      ((parseAIResponse content ty md).code ∈ codeBlocksOf content ∧
        (∀ b ∈ codeBlocksOf content, b.length ≤ (parseAIResponse content ty md).code.length) ∧
        (∃ pre suf, codeBlocksOf content = pre ++ (parseAIResponse content ty md).code :: suf ∧
          ∀ b ∈ pre, b.length < (parseAIResponse content ty md).code.length) ∧
        (parseAIResponse content ty md).explanation =
          (if jsTrim (strippedOf content) = "" then none else some (jsTrim (strippedOf content))))) ∧
    (∀ md : Option MetadataInfo,
      (parseAIResponse "```ts\nconst a=1;\n```\nExplanation text" AIRequestType.write md).code =
        "const a=1;" ∧
      (parseAIResponse "```ts\nconst a=1;\n```\nExplanation text" AIRequestType.write md).explanation =
        some "Explanation text") := by
  refine ⟨?_, ?_, ?_⟩
  · intro content md
    constructor <;> simp [parseAIResponse]
  · intro content ty md hty hne
    cases hcb : codeBlocksOf content with
    | nil => exact absurd hcb hne
    | cons b bs =>
      have hcode : (parseAIResponse content ty md).code = pickLongest (b :: bs) := by
        simp [parseAIResponse, hty, hcb]
      have hexp : (parseAIResponse content ty md).explanation =
          (if jsTrim (strippedOf content) = "" then none else some (jsTrim (strippedOf content))) := by
        by_cases he : jsTrim (strippedOf content) = "" <;> simp [parseAIResponse, hty, hcb, he]
      refine ⟨?_, ?_, ?_, hexp⟩
      · rw [hcode]; exact pickLongest_mem b bs
      · rw [hcode]; exact pickLongest_max b bs
      · rw [hcode]; exact pickLongest_first b bs
  · intro md
    obtain ⟨h1, h2⟩ := parse_projections_md_irrel
      "```ts\nconst a=1;\n```\nExplanation text" AIRequestType.write md none
    constructor
    · rw [h1]; decide
    · rw [h2]; decide

/-- C4 witness: the block-selection clause applied to a concrete input with a
fenced block. -/
theorem parseAIResponse_spec_witness :
    (parseAIResponse "```a\nxx\n```\nhello" AIRequestType.write none).code ∈
      codeBlocksOf "```a\nxx\n```\nhello" :=
  (parseAIResponse_spec.2.1 "```a\nxx\n```\nhello" AIRequestType.write none
    (by decide) (by decide)).1

/-- C5: the router maps an HTTP 401 from the hosted OpenAI backend to an
error identifying the invalid API key, maps a refused connection from the
local Ollama backend to an error identifying that the server is not running,
both messages contain the respective phrases, and every transport error is
re-raised to the caller as an error (never swallowed). -/
theorem sendRequest_error_taxonomy :
    (∀ (ty : AIRequestType) (m : String) (e : AxiosErrorInfo),
      e.isAxiosError = true → e.status = some 401 →
      sendRequest AIProvider.openai ty m (Except.error e) =
        Except.error ("AI request failed: " ++ "OpenAI API key is invalid or expired")) ∧
    strHasSub ("AI request failed: " ++ "OpenAI API key is invalid or expired")
      "API key is invalid or expired" = true ∧
    (∀ (ty : AIRequestType) (m : String) (e : AxiosErrorInfo),
      e.isAxiosError = true → e.code = some "ECONNREFUSED" →
      sendRequest AIProvider.ollama ty m (Except.error e) =
        Except.error ("AI request failed: " ++
          "Ollama server is not running. Please start Ollama and try again.")) ∧
    strHasSub ("AI request failed: " ++
        "Ollama server is not running. Please start Ollama and try again.")
      "server is not running" = true ∧
    (∀ (p : AIProvider) (ty : AIRequestType) (m : String) (e : AxiosErrorInfo),
      ∃ msg, sendRequest p ty m (Except.error e) = Except.error msg) := by
  refine ⟨?_, by decide, ?_, by decide, ?_⟩
  · intro ty m e h1 h2
    simp [sendRequest, handleOpenAIRequest, h1, h2]
  · intro ty m e h1 h2
    simp [sendRequest, handleOllamaRequest, h1, h2]
  · intro p ty m e
    cases p
    all_goals
      simp only [sendRequest, handleOpenAIRequest, handleClaudeRequest, handleOllamaRequest,
        handleLMStudioRequest, handleVLLMRequest]
    all_goals split_ifs <;> exact ⟨_, rfl⟩

/-- C5 witness: a concrete 401 against OpenAI and a concrete refused
connection against Ollama. -/
theorem sendRequest_error_taxonomy_witness :
    sendRequest AIProvider.openai AIRequestType.write "gpt-4"
        (Except.error ⟨some 401, none, "Request failed with status code 401", true⟩) =
      Except.error ("AI request failed: " ++ "OpenAI API key is invalid or expired") ∧
    sendRequest AIProvider.ollama AIRequestType.write "codellama"
        (Except.error ⟨none, some "ECONNREFUSED", "connect ECONNREFUSED", true⟩) =
      Except.error ("AI request failed: " ++
        "Ollama server is not running. Please start Ollama and try again.") :=
  ⟨sendRequest_error_taxonomy.1 AIRequestType.write "gpt-4" _ rfl rfl,
    sendRequest_error_taxonomy.2.2.1 AIRequestType.write "codellama" _ rfl rfl⟩

/-- C2: round-trip over the file-access collaborator, from a fresh manager.
For every file system on which the write and delete operations at `path`
succeed: proposeCreate, a successful applyChange, then undoChange leaves no
file at `path`; and when the original content of `path` was readable at
staging time, proposeModify, a successful applyChange, then undoChange
restores the original content exactly. -/
theorem roundTrip_create_modify :
    ∀ (fs : FileSystem) (path content desc : String),
      fs.writeFails path = false → fs.deleteFails path = false →
      ((applyChange fs (createFile initialWriter path content desc).2
          (createFile initialWriter path content desc).1.id false).map (fun r => r.1) =
        Except.ok true ∧
       fsRead (applyThenUndo fs (createFile initialWriter path content desc).2
          (createFile initialWriter path content desc).1.id).2 path = none) ∧
      (∀ orig newContent, fs.files path = some orig →
       ((applyChange fs (modifyFile fs initialWriter path newContent desc).2
           (modifyFile fs initialWriter path newContent desc).1.id false).map (fun r => r.1) =
         Except.ok true ∧
        fsRead (applyThenUndo fs (modifyFile fs initialWriter path newContent desc).2
           (modifyFile fs initialWriter path newContent desc).1.id).2 path = some orig)) := by
  intro fs path content desc hw hd
  constructor
  · constructor
    · simp [createFile, initialWriter, applyChange, executeChange, fsWrite, hw,
        moveToHistory, trimHistory, Except.map]
    · simp [createFile, initialWriter, applyThenUndo, applyChange, executeChange, fsWrite, hw,
        moveToHistory, trimHistory, undoChange, deleteFilePhysically, fsDelete, hd, fsRead]
  · intro orig newContent hr
    constructor
    · simp [modifyFile, initialWriter, applyChange, executeChange, fsWrite, hw,
        moveToHistory, trimHistory, fsRead, hr, Except.map]
    · simp [modifyFile, initialWriter, applyThenUndo, applyChange, executeChange, fsWrite, hw,
        moveToHistory, trimHistory, undoChange, fsRead, hr]

/-- C2 witness: the create round trip on an empty file system and the modify
round trip on a file system holding original content. -/
theorem roundTrip_create_modify_witness :
    fsRead (applyThenUndo emptyFs (createFile initialWriter "/t/a.ts" "const x=1;" "d").2
      (createFile initialWriter "/t/a.ts" "const x=1;" "d").1.id).2 "/t/a.ts" = none ∧
    fsRead (applyThenUndo fileFs (modifyFile fileFs initialWriter "/t/a.ts" "Y" "d").2
      (modifyFile fileFs initialWriter "/t/a.ts" "Y" "d").1.id).2 "/t/a.ts" = some "orig" :=
  ⟨((roundTrip_create_modify emptyFs "/t/a.ts" "const x=1;" "d" rfl rfl).1).2,
   (((roundTrip_create_modify fileFs "/t/a.ts" "Y" "d" rfl rfl).2) "orig" "Y" (by decide)).2⟩

/-- C9 amended: in `getChangePreview`, a Delete change is always destructive,
a Modify change is destructive exactly when twice the new content length is
below the original content length, and every other change type - including
Replace - is reported non-destructive. -/
theorem preview_destructiveness :
    ∀ (st : WriterState) (cid : String) (c : FileChange) (pv : ChangePreview),
      st.pendingChanges.find? (fun x => x.id == cid) = some c →
      getChangePreview st cid = some pv →
      ((c.changeType = EditType.delete → pv.isDestructive = true) ∧
       (c.changeType = EditType.modify →
         (pv.isDestructive = true ↔ c.newContent.length * 2 < c.originalContent.length)) ∧
       (c.changeType = EditType.create ∨ c.changeType = EditType.replace ∨
         c.changeType = EditType.insert → pv.isDestructive = false)) := by
  intro st cid c pv h1 h2
  unfold getChangePreview at h2
  rw [h1] at h2
  simp only [Option.some.injEq] at h2
  subst h2
  refine ⟨?_, ?_, ?_⟩
  · intro h; simp [h]
  · intro h; simp [h]
  · intro h
    rcases h with h | h | h <;> simp [h]

/-- C9 witness: the Delete clause on a concretely staged deletion. -/
theorem preview_destructiveness_witness :
    ((getChangePreview (deleteFile fileFs initialWriter "/t/a.ts" "d").2 "change_0").map
      (fun pv => pv.isDestructive)) = some true := by
  have h1 : (deleteFile fileFs initialWriter "/t/a.ts" "d").2.pendingChanges.find?
      (fun x => x.id == "change_0") = some (deleteFile fileFs initialWriter "/t/a.ts" "d").1 := by
    decide
  cases hpv : getChangePreview (deleteFile fileFs initialWriter "/t/a.ts" "d").2 "change_0" with
  | none =>
    exfalso
    unfold getChangePreview at hpv
    rw [h1] at hpv
    simp at hpv
  | some pv =>
    have := (preview_destructiveness (deleteFile fileFs initialWriter "/t/a.ts" "d").2
      "change_0" (deleteFile fileFs initialWriter "/t/a.ts" "d").1 pv h1 hpv).1 (by decide)
    simp [this]

/-- A manager holding one pending Replace change whose new content is far
shorter than half of the original content, staged through `createChange`. -/
def replaceSt : WriterState :=
  (createChange emptyFs initialWriter
    { filePath := "/f.ts", editType := EditType.replace, newContent := "x",
      originalContent := some "0123456789", description := "d" }).2

/-- C9 counterexample: the pending change of `replaceSt` is a Replace whose
new content is shorter than half the original, yet `getChangePreview` reports
it as non-destructive, against the claimed Modify/Replace rule. -/
theorem preview_replace_counterexample :
    ((getChangePreview replaceSt "change_0").map (fun pv => pv.isDestructive)) = some false ∧
    replaceSt.pendingChanges.map (fun c => c.changeType) = [EditType.replace] ∧
    replaceSt.pendingChanges.map
      (fun c => decide (c.newContent.length * 2 < c.originalContent.length)) = [true] := by
  refine ⟨?_, by decide, by decide⟩
  decide

/-- C10: ids are resolved only against the pending set, so after a change has
been successfully applied (and moved to history) or cancelled, a further
applyChange with its id fails with the same `Change not found` error as a
never-existing id, on any file system and dry-run flag. -/
theorem applyChange_resolved_id_not_found :
    ∀ (fs : FileSystem) (st : WriterState) (cid : String) (st2 : WriterState),
      (st.pendingChanges.map (fun c => c.id)).Nodup →
      ((applyOutcome fs st cid false = some (true, st2)) →
        ∀ (fs3 : FileSystem) (d : Bool),
          applyChange fs3 st2 cid d = Except.error ("Change not found: " ++ cid)) ∧
      ((cancelChange st cid = (true, st2)) →
        ∀ (fs3 : FileSystem) (d : Bool),
          applyChange fs3 st2 cid d = Except.error ("Change not found: " ++ cid)) := by
  intro fs st cid st2 hnd
  constructor
  · intro h fs3 d
    obtain ⟨c, hf, hst2⟩ := applyChange_ok_true_shape fs st cid st2 h
    have hcid : c.id = cid := by simpa using List.find?_some hf
    have hex : ∃ x ∈ st.pendingChanges, x.id = cid :=
      ⟨c, List.mem_of_find?_eq_some hf, hcid⟩
    apply applyChange_error_of_not_mem
    intro x hx
    have hpend : st2.pendingChanges =
        st.pendingChanges.eraseP (fun y => y.id == cid) := by
      rw [hst2]
      unfold moveToHistory
      simp [hcid]
    rw [hpend] at hx
    exact id_not_mem_eraseP st.pendingChanges cid hnd hex x hx
  · intro h fs3 d
    unfold cancelChange at h
    cases hfi : st.pendingChanges.findIdx? (fun c => c.id == cid) with
    | none => rw [hfi] at h; simp at h
    | some i =>
      rw [hfi] at h
      simp only [Prod.mk.injEq] at h
      have hex : ∃ x ∈ st.pendingChanges, x.id = cid := by
        obtain ⟨x, hx, hpx⟩ := findIdx?_imp_exists _ st.pendingChanges 0 i hfi
        exact ⟨x, hx, by simpa using hpx⟩
      apply applyChange_error_of_not_mem
      intro x hx
      rw [← h.2] at hx
      exact id_not_mem_eraseP st.pendingChanges cid hnd hex x hx

/-- C10 witness: a concrete applied change and a concrete cancelled change
whose ids are afterwards reported as not found. -/
theorem applyChange_resolved_id_not_found_witness :
    applyChange emptyFs
        ⟨[], [⟨"change_0", "/a", "", "x", EditType.create, "d", ChangeStatus.applied⟩], 100, 1⟩
        "change_0" false =
      Except.error ("Change not found: " ++ "change_0") ∧
    applyChange emptyFs ⟨[], [], 100, 1⟩ "change_0" true =
      Except.error ("Change not found: " ++ "change_0") :=
  ⟨(applyChange_resolved_id_not_found emptyFs (createFile initialWriter "/a" "x" "d").2
      "change_0" _ (by decide)).1 (by decide) emptyFs false,
   (applyChange_resolved_id_not_found emptyFs (createFile initialWriter "/a" "x" "d").2
      "change_0" _ (by decide)).2 (by decide) emptyFs true⟩

/-! ### Operation sequences and the pending/history invariant -/

/-- One call of the public Change Manager interface. -/
inductive WriterOp where
  | propCreate (path content desc : String)
  | propModify (path content desc : String)
  | propDelete (path desc : String)
  | applyOne (changeId : String) (dry : Bool)
  | applyEvery (dry : Bool)
  | cancelOne (changeId : String)

/-- Run one operation against the file system and the manager state.  A
thrown `Change not found` leaves both unchanged (it is raised before any
mutation). -/
def runOp (s : FileSystem × WriterState) (op : WriterOp) : FileSystem × WriterState :=
  match op with
  | .propCreate p c d => (s.1, (createFile s.2 p c d).2)
  | .propModify p c d => (s.1, (modifyFile s.1 s.2 p c d).2)
  | .propDelete p d => (s.1, (deleteFile s.1 s.2 p d).2)
  | .applyOne cid dry =>
    match applyChange s.1 s.2 cid dry with
    | .ok (_, fs2, st2) => (fs2, st2)
    | .error _ => s
  | .applyEvery dry =>
    ((applyAllChanges s.1 s.2 dry).2.1, (applyAllChanges s.1 s.2 dry).2.2)
  | .cancelOne cid => (s.1, (cancelChange s.2 cid).2)

/-- Run a sequence of operations. -/
def runOps (s : FileSystem × WriterState) (ops : List WriterOp) : FileSystem × WriterState :=
  ops.foldl runOp s

/-- The pending/history partition invariant of the Change Manager state:
pending changes are Pending or Failed, history records are Applied, pending
ids are pairwise distinct and disjoint from history ids, and every id was
produced by the id generator below the current counter. -/
def StateInv (st : WriterState) : Prop :=
  (∀ c ∈ st.pendingChanges, c.status = ChangeStatus.pending ∨ c.status = ChangeStatus.failed) ∧
  (∀ c ∈ st.changeHistory, c.status = ChangeStatus.applied) ∧
  (st.pendingChanges.map (fun c => c.id)).Nodup ∧
  (∀ c ∈ st.pendingChanges, ∀ d ∈ st.changeHistory, c.id ≠ d.id) ∧
  (∀ c ∈ st.pendingChanges ++ st.changeHistory,
    c.id ∈ (List.range st.nextId).map generateChangeId)

theorem mem_trimHistory (h : List FileChange) (m : Nat) :
    ∀ x ∈ trimHistory h m, x ∈ h := by
  unfold trimHistory
  split
  · intro x hx; exact List.mem_of_mem_drop hx
  · intro x hx; exact hx

theorem genId_mono (a : String) (n : Nat) (ha : a ∈ (List.range n).map generateChangeId) :
    a ∈ (List.range (n + 1)).map generateChangeId := by
  rw [List.range_succ, List.map_append]
  exact List.mem_append_left _ ha

theorem stage_inv (st : WriterState) (h : StateInv st) (c : FileChange)
    (hid : c.id = generateChangeId st.nextId) (hstat : c.status = ChangeStatus.pending) :
    StateInv { st with pendingChanges := st.pendingChanges ++ [c], nextId := st.nextId + 1 } := by
  obtain ⟨h1, h2, h3, h4, h5⟩ := h
  have hfresh : ∀ x ∈ st.pendingChanges ++ st.changeHistory, x.id ≠ generateChangeId st.nextId := by
    intro x hx heq
    have hmem := h5 x hx
    rw [heq] at hmem
    obtain ⟨k, hk, hgen⟩ := List.mem_map.mp hmem
    have hkn : k = st.nextId := generateChangeId_inj k st.nextId hgen
    rw [List.mem_range] at hk
    omega
  refine ⟨?_, ?_, ?_, ?_, ?_⟩
  · intro x hx
    rcases List.mem_append.mp hx with hx | hx
    · exact h1 x hx
    · rw [List.mem_singleton.mp hx]
      exact Or.inl hstat
  · exact h2
  · rw [List.map_append]
    rw [List.nodup_append]
    refine ⟨h3, List.nodup_singleton _, ?_⟩
    intro a ha hb
    obtain ⟨y, hy, hyid⟩ := List.mem_map.mp ha
    have hbc : a = c.id := by simpa using hb
    apply hfresh y (List.mem_append_left _ hy)
    rw [hyid, hbc, hid]
  · intro x hx d hd
    rcases List.mem_append.mp hx with hx | hx
    · exact h4 x hx d hd
    · rw [List.mem_singleton.mp hx, hid]
      intro heq
      exact hfresh d (List.mem_append_right _ hd) heq.symm
  · intro x hx
    rcases List.mem_append.mp hx with hx | hx
    · rcases List.mem_append.mp hx with hx2 | hx2
      · exact genId_mono _ _ (h5 x (List.mem_append_left _ hx2))
      · rw [List.mem_singleton.mp hx2, hid]
        rw [List.range_succ, List.map_append]
        exact List.mem_append_right _ (by simp)
    · exact genId_mono _ _ (h5 x (List.mem_append_right _ hx))

theorem setStatusFirst_map_id (l : List FileChange) (cid : String) (s : ChangeStatus) :
    (setStatusFirst l cid s).map (fun c => c.id) = l.map (fun c => c.id) := by
  induction l with
  | nil => rfl
  | cons a l ih =>
    by_cases ha : (a.id == cid) = true <;> simp [setStatusFirst, ha, ih]

theorem mem_setStatusFirst (l : List FileChange) (cid : String) (s : ChangeStatus) :
    ∀ x ∈ setStatusFirst l cid s, x ∈ l ∨ ∃ y ∈ l, x = { y with status := s } := by
  induction l with
  | nil => intro x hx; simp [setStatusFirst] at hx
  | cons a l ih =>
    intro x hx
    by_cases ha : (a.id == cid) = true
    · simp only [setStatusFirst, ha, if_true] at hx
      rcases List.mem_cons.mp hx with rfl | hx
      · exact Or.inr ⟨a, List.mem_cons_self a l, rfl⟩
      · exact Or.inl (List.mem_cons_of_mem a hx)
    · simp only [setStatusFirst, ha, if_false] at hx
      rcases List.mem_cons.mp hx with rfl | hx
      · exact Or.inl (List.mem_cons_self x l)
      · rcases ih x hx with hx2 | ⟨y, hy, hxy⟩
        · exact Or.inl (List.mem_cons_of_mem a hx2)
        · exact Or.inr ⟨y, List.mem_cons_of_mem a hy, hxy⟩

theorem moveToHistory_applied_inv (st : WriterState) (c : FileChange) (h : StateInv st)
    (hc : c ∈ st.pendingChanges) :
    StateInv (moveToHistory st { c with status := ChangeStatus.applied }) := by
  obtain ⟨h1, h2, h3, h4, h5⟩ := h
  unfold moveToHistory
  refine ⟨?_, ?_, ?_, ?_, ?_⟩
  · intro x hx
    exact h1 x ((List.eraseP_sublist _).subset hx)
  · intro x hx
    rcases List.mem_append.mp (mem_trimHistory _ _ x hx) with hx | hx
    · exact h2 x hx
    · rw [List.mem_singleton.mp hx]
  · exact h3.sublist ((List.eraseP_sublist _).map _)
  · intro x hx d hd
    rcases List.mem_append.mp (mem_trimHistory _ _ d hd) with hd | hd
    · exact h4 x ((List.eraseP_sublist _).subset hx) d hd
    · rw [List.mem_singleton.mp hd]
      exact id_not_mem_eraseP st.pendingChanges c.id h3 ⟨c, hc, rfl⟩ x hx
  · intro x hx
    rcases List.mem_append.mp hx with hx | hx
    · exact h5 x (List.mem_append_left _ ((List.eraseP_sublist _).subset hx))
    · rcases List.mem_append.mp (mem_trimHistory _ _ x hx) with hx | hx
      · exact h5 x (List.mem_append_right _ hx)
      · rw [List.mem_singleton.mp hx]
        exact h5 c (List.mem_append_left _ hc)

theorem setFailed_inv (st : WriterState) (cid : String) (h : StateInv st) :
    StateInv { st with
      pendingChanges := setStatusFirst st.pendingChanges cid ChangeStatus.failed } := by
  obtain ⟨h1, h2, h3, h4, h5⟩ := h
  refine ⟨?_, h2, ?_, ?_, ?_⟩
  · intro x hx
    rcases mem_setStatusFirst _ _ _ x hx with hx2 | ⟨y, _, hxy⟩
    · exact h1 x hx2
    · rw [hxy]
      exact Or.inr rfl
  · rw [setStatusFirst_map_id]
    exact h3
  · intro x hx d hd
    rcases mem_setStatusFirst _ _ _ x hx with hx2 | ⟨y, hy, hxy⟩
    · exact h4 x hx2 d hd
    · rw [hxy]
      exact h4 y hy d hd
  · intro x hx
    rcases List.mem_append.mp hx with hx | hx
    · rcases mem_setStatusFirst _ _ _ x hx with hx2 | ⟨y, hy, hxy⟩
      · exact h5 x (List.mem_append_left _ hx2)
      · rw [hxy]
        exact h5 y (List.mem_append_left _ hy)
    · exact h5 x (List.mem_append_right _ hx)

theorem applyChange_inv (fs : FileSystem) (st : WriterState) (cid : String) (dry : Bool)
    (h : StateInv st) :
    ∀ b fs2 st2, applyChange fs st cid dry = Except.ok (b, fs2, st2) → StateInv st2 := by
  intro b fs2 st2 happ
  unfold applyChange at happ
  cases hf : st.pendingChanges.find? (fun c => c.id == cid) with
  | none => rw [hf] at happ; simp at happ
  | some c =>
    rw [hf] at happ
    cases dry with
    | true =>
      simp only [if_true] at happ
      simp only [Except.ok.injEq, Prod.mk.injEq] at happ
      rw [← happ.2.2]
      exact h
    | false =>
      simp only [Bool.false_eq_true, if_false] at happ
      cases hex : executeChange fs c with
      | some fs3 =>
        rw [hex] at happ
        simp only [Except.ok.injEq, Prod.mk.injEq] at happ
        rw [← happ.2.2]
        exact moveToHistory_applied_inv st c h (List.mem_of_find?_eq_some hf)
      | none =>
        rw [hex] at happ
        simp only [Except.ok.injEq, Prod.mk.injEq] at happ
        rw [← happ.2.2]
        exact setFailed_inv st cid h

theorem cancelChange_inv (st : WriterState) (cid : String) (h : StateInv st) :
    StateInv (cancelChange st cid).2 := by
  obtain ⟨h1, h2, h3, h4, h5⟩ := h
  unfold cancelChange
  cases hfi : st.pendingChanges.findIdx? (fun c => c.id == cid) with
  | none => exact ⟨h1, h2, h3, h4, h5⟩
  | some i =>
    refine ⟨?_, h2, ?_, ?_, ?_⟩
    · intro x hx
      exact h1 x ((List.eraseP_sublist _).subset hx)
    · exact h3.sublist ((List.eraseP_sublist _).map _)
    · intro x hx d hd
      exact h4 x ((List.eraseP_sublist _).subset hx) d hd
    · intro x hx
      rcases List.mem_append.mp hx with hx | hx
      · exact h5 x (List.mem_append_left _ ((List.eraseP_sublist _).subset hx))
      · exact h5 x (List.mem_append_right _ hx)

theorem applyAllFold_inv (dry : Bool) :
    ∀ (l : List FileChange) (acc : (Nat × Nat) × FileSystem × WriterState),
      StateInv acc.2.2 →
      StateInv ((l.foldl (fun a c => applyAllStep a c dry) acc)).2.2 := by
  intro l
  induction l with
  | nil => intro acc h; exact h
  | cons c l ih =>
    intro acc h
    rw [List.foldl_cons]
    apply ih
    unfold applyAllStep
    cases happ : applyChange acc.2.1 acc.2.2 c.id dry with
    | ok v =>
      obtain ⟨b, fs2, st2⟩ := v
      cases b
      · exact applyChange_inv acc.2.1 acc.2.2 c.id dry h false fs2 st2 happ
      · exact applyChange_inv acc.2.1 acc.2.2 c.id dry h true fs2 st2 happ
    | error e => exact h

theorem runOp_inv (s : FileSystem × WriterState) (op : WriterOp) (h : StateInv s.2) :
    StateInv (runOp s op).2 := by
  cases op with
  | propCreate p c d => exact stage_inv s.2 h _ rfl rfl
  | propModify p c d => exact stage_inv s.2 h _ rfl rfl
  | propDelete p d => exact stage_inv s.2 h _ rfl rfl
  | applyOne cid dry =>
    simp only [runOp]
    cases happ : applyChange s.1 s.2 cid dry with
    | ok v =>
      obtain ⟨b, fs2, st2⟩ := v
      exact applyChange_inv s.1 s.2 cid dry h b fs2 st2 happ
    | error e => exact h
  | applyEvery dry =>
    simp only [runOp]
    exact applyAllFold_inv dry s.2.pendingChanges ((0, 0), s.1, s.2) h
  | cancelOne cid => exact cancelChange_inv s.2 cid h

theorem initialWriter_inv : StateInv initialWriter := by
  refine ⟨?_, ?_, ?_, ?_, ?_⟩ <;> simp [initialWriter]

theorem applyAllFold_tally (dry : Bool) :
    ∀ (l : List FileChange) (acc : (Nat × Nat) × FileSystem × WriterState),
      ((l.foldl (fun a c => applyAllStep a c dry) acc)).1.1 +
        ((l.foldl (fun a c => applyAllStep a c dry) acc)).1.2 =
      acc.1.1 + acc.1.2 + l.length := by
  intro l
  induction l with
  | nil => intro acc; simp
  | cons c l ih =>
    intro acc
    rw [List.foldl_cons, ih (applyAllStep acc c dry)]
    have hstep : (applyAllStep acc c dry).1.1 + (applyAllStep acc c dry).1.2 =
        acc.1.1 + acc.1.2 + 1 := by
      unfold applyAllStep
      cases happ : applyChange acc.2.1 acc.2.2 c.id dry with
      | ok v =>
        obtain ⟨b, fs2, st2⟩ := v
        cases b <;> simp <;> omega
      | error e => simp; omega
    rw [List.length_cons]
    omega

/-- A file system on which only writes to `/a` fail. -/
def failAFs : FileSystem :=
  { files := fun _ => none, writeFails := fun p => p == "/a", deleteFails := fun _ => false }

/-- A file system on which only writes to `/b` fail. -/
def failBFs : FileSystem :=
  { files := fun _ => none, writeFails := fun p => p == "/b", deleteFails := fun _ => false }

/-- Three staged creations for `/a`, `/b` and `/c` (Scenario C of the spec). -/
def threeSt : WriterState :=
  (createFile (createFile (createFile initialWriter "/a" "A" "d1").2 "/b" "B" "d2").2
    "/c" "C" "d3").2

/-- The manager state after one staged creation of `/a` and one failed apply:
the change stays pending with status Failed. -/
def failedOneSt : WriterState :=
  ⟨[⟨"change_0", "/a", "", "x", EditType.create, "d", ChangeStatus.failed⟩], [], 100, 1⟩

/-- C1 counterexample: after staging one creation and applying it over a file
system whose write throws, the change remains in the pending collection with
status Failed and the history stays empty - so a change of status Failed is
in the pending set, against the claimed pending-iff-Pending invariant, and it
was not moved to history. -/
theorem pending_failed_counterexample :
    applyOutcome failAFs (createFile initialWriter "/a" "x" "d").2 "change_0" false =
      some (false, failedOneSt) ∧
    failedOneSt.pendingChanges.map (fun c => c.status) = [ChangeStatus.failed] ∧
    failedOneSt.changeHistory = [] ∧
    ¬ (∀ c ∈ failedOneSt.pendingChanges, c.status = ChangeStatus.pending) := by
  refine ⟨by decide, by decide, by decide, ?_⟩
  intro hall
  have := hall ⟨"change_0", "/a", "", "x", EditType.create, "d", ChangeStatus.failed⟩
    (by decide)
  simp at this

/-- C1 amended: after every sequence of operations (propose, applyChange,
applyAll, cancelChange) from a fresh manager, every change in the pending
collection has status Pending or Failed (a Failed change stays pending),
every change in history has status Applied (every change that reaches
Applied has been moved from pending to history), and no id is ever in both
collections. -/
theorem pending_history_invariant :
    ∀ (fs : FileSystem) (ops : List WriterOp), StateInv (runOps (fs, initialWriter) ops).2 := by
  intro fs ops
  have hstep : ∀ (s : FileSystem × WriterState) (l : List WriterOp),
      StateInv s.2 → StateInv (runOps s l).2 := by
    intro s l
    induction l generalizing s with
    | nil => exact fun h => h
    | cons op l ih =>
      intro h
      exact ih (runOp s op) (runOp_inv s op h)
  exact hstep (fs, initialWriter) ops initialWriter_inv

/-- C3 counterexample: over three pending creations where the write of the
second throws, `applyAllChanges` does return the tally (2, 1), but the
pending set is not empty afterwards (the failed change stays in it) and no
record with status Failed is in history - so the claimed post-state is
false. -/
theorem applyAll_scenario_counterexample :
    ¬ ((applyAllChanges failBFs threeSt false).1 = (2, 1) ∧
       (applyAllChanges failBFs threeSt false).2.2.pendingChanges = [] ∧
       ((applyAllChanges failBFs threeSt false).2.2.changeHistory.filter
         (fun c => c.status == ChangeStatus.failed)).length = 1) := by
  decide

/-- C3 amended: `applyAll` applies every pending change independently - one
failure does not abort the batch - and its tally satisfies successful plus
failed equal to the number of pending changes at call time; in the concrete
three-change scenario with the second write throwing, the result is (2, 1),
the two successful changes are moved to history with status Applied, and the
failed change remains in the pending set with status Failed. -/
theorem applyAll_tally_and_scenario :
    (∀ (fs : FileSystem) (st : WriterState) (d : Bool),
      (applyAllChanges fs st d).1.1 + (applyAllChanges fs st d).1.2 =
        st.pendingChanges.length) ∧
    (applyAllChanges failBFs threeSt false).1 = (2, 1) ∧
    ((applyAllChanges failBFs threeSt false).2.2.pendingChanges.map
      (fun c => (c.id, c.status))) = [("change_1", ChangeStatus.failed)] ∧
    ((applyAllChanges failBFs threeSt false).2.2.changeHistory.map
      (fun c => (c.id, c.status))) =
      [("change_0", ChangeStatus.applied), ("change_2", ChangeStatus.applied)] := by
  refine ⟨?_, by decide, by decide, by decide⟩
  intro fs st d
  unfold applyAllChanges
  rw [applyAllFold_tally d st.pendingChanges ((0, 0), fs, st)]
  simp

end SidekickAI
